import Mathlib

/-!
Shallow embedding of the SOW-manager billing core: calendar arithmetic,
working-day counting, billing-rate resolution, billing-period generation,
monthly billing computation, the anomaly classifier, the renewal flag and
the SOW-list save and delete handlers.  JavaScript `Date` values that carry
only a calendar date are modelled as calendar dates; a date is either a
`CDate` triple (year, month, day) or its day number (days since 1970-01-01,
the proleptic Gregorian calendar, which is what JavaScript `Date`
implements).  JavaScript floating-point amounts are modelled as rationals.
-/

namespace SowManager

/-- Gregorian leap year, as implemented by JavaScript `Date` normalization. -/
def isLeap (y : Int) : Prop := (y % 4 = 0 ∧ y % 100 ≠ 0) ∨ y % 400 = 0

instance (y : Int) : Decidable (isLeap y) :=
  inferInstanceAs (Decidable ((y % 4 = 0 ∧ y % 100 ≠ 0) ∨ y % 400 = 0))

/-- Number of days of month `m` (1..12) of year `y`. -/
def daysInMonthOfYear (y m : Int) : Int :=
  if m = 2 then (if isLeap y then 29 else 28)
  else if m = 4 ∨ m = 6 ∨ m = 9 ∨ m = 11 then 30 else 31

/-- Days from 0000-01-01 up to (excluding) January 1 of year `y`:
`365y` plus one day for every leap year in `[0, y)`. -/
def daysBeforeYear (y : Int) : Int :=
  365 * y + (y + 3) / 4 - (y + 99) / 100 + (y + 399) / 400

/-- Days from January 1 of year `y` up to (excluding) the first of month `m` (1..12). -/
def daysBeforeMonth (y m : Int) : Int :=
  let L : Int := if isLeap y then 1 else 0
  if m = 1 then 0 else if m = 2 then 31 else if m = 3 then 59 + L
  else if m = 4 then 90 + L else if m = 5 then 120 + L else if m = 6 then 151 + L
  else if m = 7 then 181 + L else if m = 8 then 212 + L else if m = 9 then 243 + L
  else if m = 10 then 273 + L else if m = 11 then 304 + L else 334 + L

/-- Day number (days since 1970-01-01) of the calendar date `y-m-d`
with `m` in 1..12 and `d` in 1..(days of the month). -/
def daysFromCivil (y m d : Int) : Int :=
  daysBeforeYear y + daysBeforeMonth y m + (d - 1) - 719528

/-- Linear month index: `monthIdx y m = 12*y + (m-1)` for month `m` in 1..12. -/
def monthIdx (y m : Int) : Int := 12 * y + (m - 1)

/-- Day number of the first day of the month with linear index `idx`. -/
def firstOfMonth (idx : Int) : Int := daysFromCivil (idx / 12) (idx % 12 + 1) 1

/-- Day number built the way the JavaScript constructor `new Date(y, m0, d)`
normalizes its arguments: `m0` is the 0-based month and both month overflow
and day overflow roll over into adjacent months. -/
def jsMkDay (y m0 d : Int) : Int := firstOfMonth (12 * y + m0) + (d - 1)

/-- Number of days in the month with linear index `idx`. -/
def daysInMonthIdx (idx : Int) : Int := daysInMonthOfYear (idx / 12) (idx % 12 + 1)

/-- A calendar date as a year-month-day triple (what a `YYYY-MM-DD` string carries). -/
structure CDate where
  y : Int
  m : Int
  d : Int
deriving DecidableEq, Repr

/-- The triple denotes an actual calendar date. -/
def CDate.ValidDate (c : CDate) : Prop :=
  1 ≤ c.m ∧ c.m ≤ 12 ∧ 1 ≤ c.d ∧ c.d ≤ daysInMonthOfYear c.y c.m

instance (c : CDate) : Decidable c.ValidDate :=
  inferInstanceAs (Decidable (1 ≤ c.m ∧ c.m ≤ 12 ∧ 1 ≤ c.d ∧ c.d ≤ daysInMonthOfYear c.y c.m))

/-- Day number of a calendar date (what `parseISO` followed by date
comparisons observes). -/
def toDay (c : CDate) : Int := daysFromCivil c.y c.m c.d

/-- JavaScript `Date.prototype.getDay`: 0 = Sunday .. 6 = Saturday.
1970-01-01 (day number 0) was a Thursday (`getDay = 4`). -/
def getDay (n : Int) : Int := (n + 4) % 7

/-- A day number falls on Monday..Friday (the `day !== 0 && day !== 6` test). -/
def isWorkingDay (n : Int) : Bool := decide (getDay n ≠ 0 ∧ getDay n ≠ 6)

/-- The shared body of the four `while (currentDate <= finalDate)` loops:
starting at day `n`, scan `k` consecutive days and count the working ones. -/
def workingDaysLoop : Int → Nat → Nat
  | _, 0 => 0
  | n, k + 1 => (if isWorkingDay n then 1 else 0) + workingDaysLoop (n + 1) k

/-- `getWorkingDaysForPeriod` of the anomaly flow: the bare while loop with no
explicit end-before-start guard (the loop body simply never runs then).
The timezone-offset adjustment applied to both bounds is the identity on
calendar dates. -/
def getWorkingDaysForPeriod (s e : Int) : Nat :=
  workingDaysLoop s (e + 1 - s).toNat

/-- `getWorkingDays` of the billing tab: `if (isBefore(endDate, startDate)) return 0`
then the same loop.  (The null-check on the arguments has no counterpart on
total values.) -/
def SowBillingTab.getWorkingDays (s e : Int) : Nat :=
  if e < s then 0 else workingDaysLoop s (e + 1 - s).toNat

/-- `getWorkingDays` of the manager-analytics table: identical guarded copy. -/
def ManagerAnalytics.getWorkingDays (s e : Int) : Nat :=
  if e < s then 0 else workingDaysLoop s (e + 1 - s).toNat

/-- `getWorkingDays` of the SOW card: identical guarded copy. -/
def SowCard.getWorkingDays (s e : Int) : Nat :=
  if e < s then 0 else workingDaysLoop s (e + 1 - s).toNat

/-- Specification-level count: the number of Monday-through-Friday days in
`[s, e]` inclusive, stated independently of the loops. -/
def specWorkingDays (s e : Int) : Nat :=
  (((List.range (e + 1 - s).toNat).map (fun k : Nat => s + (k : Int))).filter
    isWorkingDay).length

/-- One `{year, ratePerResource}` entry of a SOW billing-rate history. -/
structure BillingRate where
  year : Int
  ratePerResource : ℚ
deriving DecidableEq, Repr

/-- The comparator `(a, b) => b.year - a.year` used to sort rates descending. -/
def rateDescOrder (a b : BillingRate) : Prop := b.year ≤ a.year

instance : DecidableRel rateDescOrder := fun a b =>
  inferInstanceAs (Decidable (b.year ≤ a.year))

instance : IsTotal BillingRate rateDescOrder := ⟨fun a b => le_total b.year a.year⟩

instance : IsTrans BillingRate rateDescOrder :=
  ⟨fun _ _ _ hab hbc => le_trans hbc hab⟩

/-- `getRateForYear` of the billing tab (identical copies live in the
manager-analytics table and the SOW card): stably sort the rate history by
year descending, take the first entry whose year is at or before the target
year, default 0.  A JavaScript stable sort is modelled by insertion sort;
the trailing `|| 0` maps a found rate of 0 to 0 and is otherwise the
identity. -/
def getRateForYear (billingRates : List BillingRate) (year : Int) : ℚ :=
  if billingRates = [] then 0
  else
    let sortedRates := List.insertionSort rateDescOrder billingRates
    match sortedRates.find? (fun rte => decide (rte.year ≤ year)) with
    | some applicableRate =>
        if applicableRate.ratePerResource = 0 then 0 else applicableRate.ratePerResource
    | none => 0

/-- One `{resourceName, leaveDays}` entry of a month's leave list. -/
structure ResourceLeave where
  resourceName : String
  leaveDays : ℚ
deriving DecidableEq, Repr

/-- The SOW record (fields the billing computations read, plus the identity
and descriptive fields handled by the save and delete handlers). -/
structure SOW where
  id : String
  projectName : String
  vendorName : String
  vendorManager : String
  purchaseOrderNumber : Option String
  startDate : CDate
  endDate : CDate
  billingRates : List BillingRate
  numberOfResources : ℕ
  clientManager : String
deriving DecidableEq, Repr

/-- Per-month editable billing state of the billing tab (the `monthId`
display string is omitted; it never enters a computation). -/
structure MonthlyBillingData where
  billingPeriodStartDate : CDate
  billingPeriodEndDate : CDate
  regionalHolidays : ℚ
  actualNumberOfResources : ℕ
  resourceLeaves : List ResourceLeave
deriving DecidableEq, Repr

/-- What the Monthly Billing Preview card computes for the selected month:
`{amount, billableDays, dailyRate, monthlyRate}`. -/
structure PreviewResult where
  amount : ℚ
  billableDays : ℚ
  dailyRate : ℚ
  monthlyRate : ℚ
deriving DecidableEq, Repr

/-- The billing tab's total billable days for one month:
`(billableDaysAfterHolidays * actualNumberOfResources) - totalLeaveDays`,
where the leave sum runs over the whole `resourceLeaves` list. -/
def tabTotalBillableDays (month : MonthlyBillingData) (billableDaysAfterHolidays : ℚ) : ℚ :=
  billableDaysAfterHolidays * (month.actualNumberOfResources : ℚ)
    - (month.resourceLeaves.map (·.leaveDays)).sum

/-- `previewBilling` of the billing tab, for a given selected month (the
selection of the month by today's date is ambient state): rate for the
period-end year, daily rate over 21 days, working days of the window clipped
to the SOW span, minus holidays, times resources, minus all leave days,
times the daily rate — with no clamping anywhere. -/
def previewBilling (sow : SOW) (targetMonth : MonthlyBillingData) : PreviewResult :=
  let year := targetMonth.billingPeriodEndDate.y
  let monthlyRate := getRateForYear sow.billingRates year
  let dailyRate := monthlyRate / 21
  let effectiveStart := max (toDay targetMonth.billingPeriodStartDate) (toDay sow.startDate)
  let effectiveEnd := min (toDay targetMonth.billingPeriodEndDate) (toDay sow.endDate)
  let workingDays := SowBillingTab.getWorkingDays effectiveStart effectiveEnd
  let billableDays := (workingDays : ℚ) - targetMonth.regionalHolidays
  let totalBillableDaysForAllResources := tabTotalBillableDays targetMonth billableDays
  ⟨totalBillableDaysForAllResources * dailyRate, billableDays, dailyRate, monthlyRate⟩

/-- The accordion row total `totalMonthBillingINR` of the billing tab for one
month: the same unclamped total billable days times the daily rate, clamped
at the end by `Math.max(0, ...)`. -/
def monthTotalBillingINR (sow : SOW) (month : MonthlyBillingData) : ℚ :=
  let year := month.billingPeriodEndDate.y
  let monthlyRate := getRateForYear sow.billingRates year
  let dailyRate := monthlyRate / 21
  let effectiveStart := max (toDay month.billingPeriodStartDate) (toDay sow.startDate)
  let effectiveEnd := min (toDay month.billingPeriodEndDate) (toDay sow.endDate)
  let workingDays := SowBillingTab.getWorkingDays effectiveStart effectiveEnd
  let billableDaysAfterHolidays := (workingDays : ℚ) - month.regionalHolidays
  max 0 (tabTotalBillableDays month billableDaysAfterHolidays * dailyRate)

/-- A per-resource row of the billing tab table:
`Math.max(0, billableDaysAfterHolidays - resource.leaveDays) * dailyRate`. -/
def resourceRowBill (billableDaysAfterHolidays dailyRate leaveDays : ℚ) : ℚ :=
  max 0 (billableDaysAfterHolidays - leaveDays) * dailyRate

/-- Raw start of the billing period of the month with linear index `idx`:
`new Date(year, month - 1, 26)`, the 26th of the previous month. -/
def rawStart (idx : Int) : Int := firstOfMonth (idx - 1) + 25

/-- Raw end of the billing period of the month with linear index `idx`:
`new Date(year, month, 25)`, the 25th of that month. -/
def rawEnd (idx : Int) : Int := firstOfMonth idx + 24

/-- `getBillingPeriods`: starting from the first of the SOW's start month,
one iteration per month while the month's first day is at or before the SOW
end date — which holds exactly for the months from the start month through
the end month (`firstOfMonth_le_toDay_iff` below certifies the loop bound) —
keeping a period when its raw window overlaps the SOW span, most recent
first.  Only the period windows are modelled; the default holidays, resource
count and zero leave rows attached to each generated period do not matter to
the window geometry. -/
def getBillingPeriods (s e : CDate) : List (Int × Int) :=
  let sD := toDay s
  let eD := toDay e
  let idx0 := monthIdx s.y s.m
  let idxE := monthIdx e.y e.m
  (((List.range (idxE - idx0 + 1).toNat).map (fun k : Nat => idx0 + (k : Int))).filterMap
    (fun idx =>
      if sD ≤ rawEnd idx ∧ rawStart idx ≤ eD then some (rawStart idx, rawEnd idx)
      else none)).reverse

/-- The clipped window of a generated period `p` contains day `n`: the
period is prorated to `[max(start, sowStart), min(end, sowEnd)]`. -/
def clipCovers (s e : CDate) (p : Int × Int) (n : Int) : Prop :=
  max p.1 (toDay s) ≤ n ∧ n ≤ min p.2 (toDay e)

instance (s e : CDate) (p : Int × Int) (n : Int) : Decidable (clipCovers s e p n) :=
  inferInstanceAs (Decidable (max p.1 (toDay s) ≤ n ∧ n ≤ min p.2 (toDay e)))

/-- How many generated billing periods of the SOW span `[s, e]`, after
clipping to that span, contain the day `n`. -/
def coveredCount (s e : CDate) (n : Int) : Nat :=
  (getBillingPeriods s e).countP (fun p => decide (clipCovers s e p n))

/-- `ANOMALY_THRESHOLD_PERCENTAGE = 0.05`. -/
def ANOMALY_THRESHOLD_PERCENTAGE : ℚ := 5 / 100

/-- `relativeDeviation` of the anomaly flow: `|actual - expected| / expected`
when `expected > 0`, else 1 when the absolute deviation is positive, else 0. -/
def relativeDeviation (expected actual : ℚ) : ℚ :=
  let deviation := |actual - expected|
  if 0 < expected then deviation / expected else if 0 < deviation then 1 else 0

/-- `isAnomalyDetectedBySystem`: deviation strictly beyond the 5% threshold. -/
def isAnomalyDetectedBySystem (expected actual : ℚ) : Bool :=
  decide (ANOMALY_THRESHOLD_PERCENTAGE < relativeDeviation expected actual)

/-- The USD-conversion step shared by the expected and the actual amount in
the anomaly flow: multiply by the rate when one is supplied and positive. -/
def applyUsdConversion (usdConversionRate : Option ℚ) (amount : ℚ) : ℚ :=
  match usdConversionRate with
  | some c => if 0 < c then amount * c else amount
  | none => amount

/-- Leave days of resource `i` as the anomaly flow reads them:
`resourceLeaves[i]?.leaveDays || 0` (a missing entry, and a zero entry,
contribute 0). -/
def leaveAt (resourceLeaves : List ResourceLeave) (i : ℕ) : ℚ :=
  ((resourceLeaves.get? i).map (·.leaveDays)).getD 0

/-- The anomaly flow's accumulation loop: for each of the first
`actualNumberOfResources` resources, clamp `effectiveBaseWorkingDays`
minus that resource's leave at 0 and bill it at the per-resource rate. -/
def anomalyTotalExpected (effectiveBaseWorkingDays : ℚ) (actualNumberOfResources : ℕ)
    (resourceLeaves : List ResourceLeave) (rate : ℚ) : ℚ :=
  ∑ i ∈ Finset.range actualNumberOfResources,
    max 0 (effectiveBaseWorkingDays - leaveAt resourceLeaves i) * rate

/-- The computational inputs of `generateBillingAnomalyExplanationFlow`
(the prompt-only descriptive strings are omitted). -/
structure AnomalyInput where
  billingRates : List BillingRate
  actualNumberOfResources : ℕ
  billingPeriodStartDate : CDate
  billingPeriodEndDate : CDate
  actualBillingAmount : ℚ
  regionalHolidays : ℚ
  resourceLeaves : List ResourceLeave
  usdConversionRate : Option ℚ
deriving Repr

/-- The deterministic part of `generateBillingAnomalyExplanationFlow`:
`none` models the thrown error when the rate history has no entry for
exactly the billing-period end year; otherwise the pair of the expected
billing amount in USD and the system's anomaly verdict.  (The natural
language explanation and the final `isAnomaly`, which the external
generator may override, are outside the embedded core.) -/
def anomalyFlowCore (input : AnomalyInput) : Option (ℚ × Bool) :=
  let currentYear := input.billingPeriodEndDate.y
  match input.billingRates.find? (fun rte => decide (rte.year = currentYear)) with
  | none => none
  | some currentYearBillingRateEntry =>
    let currentYearBillingRate := currentYearBillingRateEntry.ratePerResource
    let baseWorkingDaysInPeriod :=
      getWorkingDaysForPeriod (toDay input.billingPeriodStartDate)
        (toDay input.billingPeriodEndDate)
    let effectiveBaseWorkingDays :=
      (baseWorkingDaysInPeriod : ℚ) - input.regionalHolidays
    let totalExpectedBilling :=
      anomalyTotalExpected effectiveBaseWorkingDays input.actualNumberOfResources
        input.resourceLeaves currentYearBillingRate
    let expectedBillingAmountUSD := applyUsdConversion input.usdConversionRate totalExpectedBilling
    let actualBillingAmountUSD := applyUsdConversion input.usdConversionRate input.actualBillingAmount
    some (expectedBillingAmountUSD,
      isAnomalyDetectedBySystem expectedBillingAmountUSD actualBillingAmountUSD)

/-- date-fns `compareAsc` on day numbers: -1, 0 or 1. -/
def compareAsc (a b : Int) : Int := if a < b then -1 else if b < a then 1 else 0

/-- date-fns `differenceInMonths(l, r)`: the signed number of whole months
between two calendar dates.  Modelled from the date-fns algorithm: the
calendar-month difference, reduced by one when moving the later date back by
that many months (after the library's end-of-February `setDate(30)`
adjustment, whose JavaScript day overflow lands in early March) overshoots
the earlier date, with the library's special case for a last day of month. -/
def differenceInMonths (l r : CDate) : Int :=
  let lDay := toDay l
  let rDay := toDay r
  let sign := compareAsc lDay rDay
  let difference := |monthIdx l.y l.m - monthIdx r.y r.m|
  if difference < 1 then 0
  else
    let tm := if l.m = 2 ∧ 27 < l.d then 3 else l.m
    let td := if l.m = 2 ∧ 27 < l.d then 30 - daysInMonthOfYear l.y 2 else l.d
    let moved := jsMkDay l.y (tm - 1 - sign * difference) td
    let isLastMonthNotFull :=
      compareAsc moved rDay = -sign ∧
        ¬(l.d = daysInMonthOfYear l.y l.m ∧ difference = 1 ∧ compareAsc lDay rDay = 1)
    sign * (difference - if isLastMonthNotFull then 1 else 0)

/-- `isExpired` of the SOW card: `isBefore(endDate, now)`. -/
def isExpired (endDate today : CDate) : Bool := decide (toDay endDate < toDay today)

/-- `isRenewalDue` of the SOW card:
`!isExpired && differenceInMonths(endDate, now) <= 3`. -/
def isRenewalDue (endDate today : CDate) : Bool :=
  !isExpired endDate today && decide (differenceInMonths endDate today ≤ 3)

/-- `handleSaveSow` of the dashboard page: replace every list element whose
id matches the saved SOW's id when one exists, otherwise append. -/
def handleSaveSow (prevSows : List SOW) (sowToSave : SOW) : List SOW :=
  if prevSows.any (fun s => decide (s.id = sowToSave.id)) then
    prevSows.map (fun s => if s.id = sowToSave.id then sowToSave else s)
  else prevSows ++ [sowToSave]

/-- `handleDeleteSow` of the dashboard page: keep the elements whose id
differs from the deleted id. -/
def handleDeleteSow (prevSows : List SOW) (sowId : String) : List SOW :=
  prevSows.filter (fun s => decide (s.id ≠ sowId))

/-- Formalisation of the wording of claim C7 (and of spec §4.4 step 4):
per-resource billable days are `max(0, effectiveDaysPerResource - leaveDays)`
and the total sums over exactly the first `actualNumberOfResources` leave
entries, a missing entry counting as zero leave. -/
def claimPerResourceTotal (effectiveDaysPerResource : ℚ) (actualNumberOfResources : ℕ)
    (resourceLeaves : List ResourceLeave) : ℚ :=
  ∑ i ∈ Finset.range actualNumberOfResources,
    max 0 (effectiveDaysPerResource - leaveAt resourceLeaves i)

/-! ## Concrete fixtures used by witnesses and counterexamples -/

/-- A SOW spanning 2024 with a 2024 monthly rate of 21 (so a daily rate of
exactly 1) and one nominal resource. -/
def sowUnitRate : SOW :=
  { id := "s1", projectName := "alpha", vendorName := "v", vendorManager := "vm"
    purchaseOrderNumber := none, startDate := ⟨2024, 1, 1⟩, endDate := ⟨2024, 12, 31⟩
    billingRates := [⟨2024, 21⟩], numberOfResources := 1, clientManager := "cm" }

/-- The January 2024 billing month of `sowUnitRate` with 30 regional
holidays entered — more holidays than the 19 working days of the clipped
window. -/
def monthManyHolidays : MonthlyBillingData :=
  { billingPeriodStartDate := ⟨2023, 12, 26⟩, billingPeriodEndDate := ⟨2024, 1, 25⟩
    regionalHolidays := 30, actualNumberOfResources := 1
    resourceLeaves := [{ resourceName := "r1", leaveDays := 0 }] }

/-- A billing month with one actual resource but two leave entries (0 and 5
leave days): the second entry lies beyond the actual resource count. -/
def monthExtraLeaveRow : MonthlyBillingData :=
  { billingPeriodStartDate := ⟨2023, 12, 26⟩, billingPeriodEndDate := ⟨2024, 1, 25⟩
    regionalHolidays := 0, actualNumberOfResources := 1
    resourceLeaves := [{ resourceName := "r1", leaveDays := 0 },
                       { resourceName := "r2", leaveDays := 5 }] }

/-- An anomaly-flow input whose rate history has no entry at or before the
billing period's end year 2024 (its only entry is for 2025). -/
def inputNoResolvableRate : AnomalyInput :=
  { billingRates := [⟨2025, 100⟩], actualNumberOfResources := 1
    billingPeriodStartDate := ⟨2023, 12, 26⟩, billingPeriodEndDate := ⟨2024, 1, 25⟩
    actualBillingAmount := 1000, regionalHolidays := 0
    resourceLeaves := [{ resourceName := "r1", leaveDays := 0 }]
    usdConversionRate := none }

/-- An existing SOW record and an edited version carrying the same id. -/
def sowEdited : SOW := { sowUnitRate with projectName := "beta" }

/-- A SOW with a fresh id, for the append branch of saving. -/
def sowOther : SOW := { sowUnitRate with id := "s2", projectName := "gamma" }

/-! ## Helper lemmas -/

theorem workingDaysLoop_eq (k : Nat) : ∀ s : Int,
    workingDaysLoop s k =
      (((List.range k).map (fun i : Nat => s + (i : Int))).filter isWorkingDay).length := by
  induction k with
  | zero => intro s; rfl
  | succ n ih =>
    intro s
    have hmap : (List.range (n + 1)).map (fun i : Nat => s + (i : Int)) =
        s :: (List.range n).map (fun i : Nat => (s + 1) + (i : Int)) := by
      rw [List.range_succ_eq_map, List.map_cons, List.map_map]
      simp only [Nat.cast_zero, add_zero]
      exact congrArg (s :: ·) (List.map_congr_left fun i _ => by
        simp only [Function.comp_apply, Nat.cast_succ]; ring)
    rw [hmap, List.filter_cons]
    cases hw : isWorkingDay s
    · simp [workingDaysLoop, hw, ih (s + 1)]
    · simp only [workingDaysLoop, hw, if_true, List.filter_cons, ite_true,
        List.length_cons, ih (s + 1)]
      omega

theorem sorted_find?_max (y : Int) :
    ∀ l : List BillingRate, List.Sorted rateDescOrder l →
      ∀ r, l.find? (fun rte => decide (rte.year ≤ y)) = some r →
        r ∈ l ∧ r.year ≤ y ∧ ∀ x ∈ l, x.year ≤ y → x.year ≤ r.year := by
  intro l
  induction l with
  | nil => intro _ r h; simp at h
  | cons a t ih =>
    intro hs r h
    by_cases ha : a.year ≤ y
    · have hda : decide (a.year ≤ y) = true := decide_eq_true ha
      simp only [List.find?_cons, hda, Option.some.injEq] at h
      subst h
      refine ⟨List.mem_cons_self _ _, ha, ?_⟩
      intro x hx _
      rcases List.mem_cons.mp hx with hx | hx
      · exact le_of_eq (congrArg BillingRate.year hx)
      · exact List.rel_of_sorted_cons hs x hx
    · have hda : decide (a.year ≤ y) = false := decide_eq_false ha
      simp only [List.find?_cons, hda] at h
      obtain ⟨hmem, hle, hmax⟩ := ih hs.of_cons r h
      refine ⟨List.mem_cons_of_mem _ hmem, hle, ?_⟩
      intro x hx hxy
      rcases List.mem_cons.mp hx with hx | hx
      · exact absurd (hx ▸ hxy) ha
      · exact hmax x hx hxy

theorem getRateForYear_eq_zero (rates : List BillingRate) (y : Int)
    (h : ∀ e ∈ rates, ¬e.year ≤ y) : getRateForYear rates y = 0 := by
  unfold getRateForYear
  by_cases hnil : rates = []
  · simp [hnil]
  · simp only [hnil, if_false]
    have hnone : (List.insertionSort rateDescOrder rates).find?
        (fun rte => decide (rte.year ≤ y)) = none := by
      rw [List.find?_eq_none]
      intro x hx
      have hx' : x ∈ rates := (List.perm_insertionSort rateDescOrder rates).mem_iff.mp hx
      simpa using h x hx'
    rw [hnone]

theorem getRateForYear_exists_max (rates : List BillingRate) (y : Int)
    (e₀ : BillingRate) (he₀ : e₀ ∈ rates) (hq : e₀.year ≤ y) :
    ∃ e ∈ rates, e.year ≤ y ∧ (∀ x ∈ rates, x.year ≤ y → x.year ≤ e.year) ∧
      getRateForYear rates y = e.ratePerResource := by
  have hnil : rates ≠ [] := List.ne_nil_of_mem he₀
  have hperm := List.perm_insertionSort rateDescOrder rates
  have hsorted := List.sorted_insertionSort rateDescOrder rates
  obtain ⟨r, hr⟩ : ∃ r, (List.insertionSort rateDescOrder rates).find?
      (fun rte => decide (rte.year ≤ y)) = some r := by
    cases hfind : (List.insertionSort rateDescOrder rates).find?
        (fun rte => decide (rte.year ≤ y)) with
    | some r => exact ⟨r, rfl⟩
    | none =>
      rw [List.find?_eq_none] at hfind
      exact absurd (by simpa using hq)
        (hfind e₀ (hperm.mem_iff.mpr he₀))
  obtain ⟨hmem, hle, hmax⟩ := sorted_find?_max y _ hsorted r hr
  refine ⟨r, hperm.mem_iff.mp hmem, hle, ?_, ?_⟩
  · intro x hx hxy
    exact hmax x (hperm.mem_iff.mpr hx) hxy
  · unfold getRateForYear
    simp only [hnil, if_false]
    rw [hr]
    by_cases hz : r.ratePerResource = 0 <;> simp [hz]

theorem getRateForYear_eq_of_max (rates : List BillingRate) (y : Int) (e : BillingRate)
    (he : e ∈ rates) (hq : e.year ≤ y) (hmax : ∀ x ∈ rates, x.year ≤ y → x.year ≤ e.year)
    (hinj : ∀ x ∈ rates, x.year = e.year → x = e) :
    getRateForYear rates y = e.ratePerResource := by
  obtain ⟨r, hrmem, hrle, hrmax, hval⟩ := getRateForYear_exists_max rates y e he hq
  have hyy : r.year = e.year :=
    le_antisymm (hmax r hrmem hrle) (hrmax e he hq)
  rw [hval, hinj r hrmem hyy]

theorem daysBeforeYear_succ (y : Int) :
    daysBeforeYear (y + 1) = daysBeforeYear y + 365 + (if isLeap y then 1 else 0) := by
  unfold daysBeforeYear isLeap
  split_ifs with h
  · omega
  · omega

theorem daysBeforeMonth_succ (y m : Int) (h1 : 1 ≤ m) (h2 : m ≤ 11) :
    daysBeforeMonth y (m + 1) = daysBeforeMonth y m + daysInMonthOfYear y m := by
  have hm : m = 1 ∨ m = 2 ∨ m = 3 ∨ m = 4 ∨ m = 5 ∨ m = 6 ∨ m = 7 ∨ m = 8 ∨ m = 9 ∨
      m = 10 ∨ m = 11 := by omega
  rcases hm with rfl | rfl | rfl | rfl | rfl | rfl | rfl | rfl | rfl | rfl | rfl <;>
    by_cases hL : isLeap y <;>
      norm_num [daysBeforeMonth, daysInMonthOfYear, hL]

theorem firstOfMonth_succ (idx : Int) :
    firstOfMonth (idx + 1) = firstOfMonth idx + daysInMonthIdx idx := by
  have h0 : 0 ≤ idx % 12 := Int.emod_nonneg idx (by norm_num)
  have h12 : idx % 12 < 12 := Int.emod_lt_of_pos idx (by norm_num)
  by_cases hr : idx % 12 ≤ 10
  · have hdiv : (idx + 1) / 12 = idx / 12 := by omega
    have hmod : (idx + 1) % 12 = idx % 12 + 1 := by omega
    unfold firstOfMonth daysInMonthIdx daysFromCivil
    rw [hdiv, hmod]
    have hstep := daysBeforeMonth_succ (idx / 12) (idx % 12 + 1) (by omega) (by omega)
    rw [hstep]
    ring
  · have hr11 : idx % 12 = 11 := by omega
    have hdiv : (idx + 1) / 12 = idx / 12 + 1 := by omega
    have hmod : (idx + 1) % 12 = 0 := by omega
    unfold firstOfMonth daysInMonthIdx daysFromCivil
    rw [hdiv, hmod, hr11]
    have hy := daysBeforeYear_succ (idx / 12)
    have hm1 : daysBeforeMonth (idx / 12 + 1) (0 + 1) = 0 := by
      norm_num [daysBeforeMonth]
    have hm12 : daysBeforeMonth (idx / 12) (11 + 1) =
        334 + (if isLeap (idx / 12) then 1 else 0) := by
      norm_num [daysBeforeMonth]
    have hd12 : daysInMonthOfYear (idx / 12) (11 + 1) = 31 := by
      norm_num [daysInMonthOfYear]
    rw [hm1, hm12, hd12, hy]
    by_cases hL : isLeap (idx / 12)
    · simp only [if_pos hL]; ring
    · simp only [if_neg hL]; ring

theorem daysInMonthIdx_bounds (idx : Int) :
    28 ≤ daysInMonthIdx idx ∧ daysInMonthIdx idx ≤ 31 := by
  unfold daysInMonthIdx daysInMonthOfYear
  split_ifs <;> omega

theorem firstOfMonth_add_nat (idx : Int) (k : Nat) :
    firstOfMonth idx + 28 * k ≤ firstOfMonth (idx + k) := by
  induction k with
  | zero => simp
  | succ m ih =>
    have hsucc := firstOfMonth_succ (idx + m)
    have hb := (daysInMonthIdx_bounds (idx + m)).1
    have hcast : (idx + ((m : Int) + 1)) = (idx + m) + 1 := by ring
    push_cast
    push_cast at ih
    rw [hcast, hsucc]
    omega

theorem firstOfMonth_mono {i j : Int} (h : i ≤ j) : firstOfMonth i ≤ firstOfMonth j := by
  have hk := firstOfMonth_add_nat i (j - i).toNat
  have hcast : i + ((j - i).toNat : Int) = j := by omega
  rw [hcast] at hk
  omega

theorem firstOfMonth_strict {i j : Int} (h : i < j) :
    firstOfMonth i + 28 ≤ firstOfMonth j := by
  have h1 := firstOfMonth_succ i
  have hb := (daysInMonthIdx_bounds i).1
  have h2 := firstOfMonth_mono (show i + 1 ≤ j by omega)
  omega

theorem firstOfMonth_monthIdx (y m : Int) (h1 : 1 ≤ m) (h2 : m ≤ 12) :
    firstOfMonth (monthIdx y m) = daysFromCivil y m 1 := by
  unfold firstOfMonth monthIdx
  have hdiv : (12 * y + (m - 1)) / 12 = y := by omega
  have hmod : (12 * y + (m - 1)) % 12 = m - 1 := by omega
  rw [hdiv, hmod]
  norm_num

theorem daysInMonthIdx_monthIdx (y m : Int) (h1 : 1 ≤ m) (h2 : m ≤ 12) :
    daysInMonthIdx (monthIdx y m) = daysInMonthOfYear y m := by
  unfold daysInMonthIdx monthIdx
  have hdiv : (12 * y + (m - 1)) / 12 = y := by omega
  have hmod : (12 * y + (m - 1)) % 12 = m - 1 := by omega
  rw [hdiv, hmod]
  norm_num

theorem toDay_bounds (c : CDate) (hv : c.ValidDate) :
    firstOfMonth (monthIdx c.y c.m) ≤ toDay c ∧
    toDay c ≤ firstOfMonth (monthIdx c.y c.m) + daysInMonthIdx (monthIdx c.y c.m) - 1 := by
  obtain ⟨hm1, hm2, hd1, hd2⟩ := hv
  rw [firstOfMonth_monthIdx c.y c.m hm1 hm2, daysInMonthIdx_monthIdx c.y c.m hm1 hm2]
  have hday : toDay c = daysFromCivil c.y c.m 1 + (c.d - 1) := by
    unfold toDay daysFromCivil
    ring
  rw [hday]
  omega

/-- The guard `isBefore(currentPeriodDate, sowEndDate) || isEqual(...)` of the
`getBillingPeriods` loop, `firstOfMonth idx ≤ toDay e`, holds exactly for the
months up to and including the end date's month: this certifies the month
range used in the embedded `getBillingPeriods`. -/
theorem firstOfMonth_le_toDay_iff (e : CDate) (hv : e.ValidDate) (idx : Int) :
    firstOfMonth idx ≤ toDay e ↔ idx ≤ monthIdx e.y e.m := by
  obtain ⟨h1, h2⟩ := toDay_bounds e hv
  constructor
  · intro h
    by_contra hc
    have hgt : monthIdx e.y e.m + 1 ≤ idx := by omega
    have hsucc := firstOfMonth_succ (monthIdx e.y e.m)
    have hmono := firstOfMonth_mono hgt
    omega
  · intro h
    have := firstOfMonth_mono h
    omega

theorem rawStart_succ (idx : Int) : rawStart (idx + 1) = rawEnd idx + 1 := by
  unfold rawStart rawEnd
  have hc : idx + 1 - 1 = idx := by ring
  rw [hc]
  ring

theorem rawStart_le_rawEnd (idx : Int) : rawStart idx ≤ rawEnd idx := by
  unfold rawStart rawEnd
  have h := firstOfMonth_succ (idx - 1)
  have hb := (daysInMonthIdx_bounds (idx - 1)).1
  have hcast : idx - 1 + 1 = idx := by ring
  rw [hcast] at h
  omega

theorem rawEnd_mono {i j : Int} (h : i ≤ j) : rawEnd i ≤ rawEnd j := by
  unfold rawEnd
  have := firstOfMonth_mono h
  omega

theorem raw_disjoint {i j : Int} (h : i < j) : rawEnd i < rawStart j := by
  have h1 := rawStart_succ i
  have h2 : rawStart (i + 1) ≤ rawStart j := by
    unfold rawStart
    have := firstOfMonth_mono (show i + 1 - 1 ≤ j - 1 by omega)
    omega
  omega

theorem raw_tile (idx0 : Int) : ∀ (k : Nat) (n : Int),
    rawStart idx0 ≤ n → n ≤ rawEnd (idx0 + k) →
    ∃ j : Int, idx0 ≤ j ∧ j ≤ idx0 + k ∧ rawStart j ≤ n ∧ n ≤ rawEnd j := by
  intro k
  induction k with
  | zero =>
    intro n h1 h2
    rw [Nat.cast_zero, add_zero] at h2
    exact ⟨idx0, le_refl _, by simp, h1, h2⟩
  | succ m ih =>
    intro n h1 h2
    rw [Nat.cast_succ, ← add_assoc] at h2
    by_cases hm : n ≤ rawEnd (idx0 + m)
    · obtain ⟨j, hj1, hj2, hj3, hj4⟩ := ih n h1 hm
      refine ⟨j, hj1, ?_, hj3, hj4⟩
      rw [Nat.cast_succ, ← add_assoc]
      omega
    · refine ⟨idx0 + m + 1, by omega, ?_, ?_, h2⟩
      · rw [Nat.cast_succ, ← add_assoc]
      · rw [rawStart_succ (idx0 + m)]
        omega

theorem countP_eq_one_of_unique {α : Type} (p : α → Bool) :
    ∀ (l : List α), l.Nodup → ∀ a ∈ l, p a = true →
      (∀ b ∈ l, p b = true → b = a) → l.countP p = 1 := by
  intro l
  induction l with
  | nil => intro _ a ha; exact absurd ha (List.not_mem_nil a)
  | cons x t ih =>
    intro hnd a ha hpa huniq
    rcases List.mem_cons.mp ha with hax | hat
    · subst hax
      rw [List.countP_cons, List.countP_eq_zero.mpr, if_pos hpa]
      intro b hb hpb
      have hba := huniq b (List.mem_cons_of_mem _ hb) hpb
      exact absurd (hba ▸ hb) (List.nodup_cons.mp hnd).1
    · have hpx : ¬p x = true := by
        intro hpx
        have := huniq x (List.mem_cons_self _ _) hpx
        exact (List.nodup_cons.mp hnd).1 (this ▸ hat)
      rw [List.countP_cons, if_neg hpx, add_zero]
      exact ih (List.nodup_cons.mp hnd).2 a hat hpa
        (fun b hb hpb => huniq b (List.mem_cons_of_mem _ hb) hpb)

theorem countP_filterMap_ite {α β : Type} (C : α → Prop) [DecidablePred C]
    (g : α → β) (p : β → Bool) :
    ∀ l : List α,
      (l.filterMap (fun x => if C x then some (g x) else none)).countP p =
      l.countP (fun x => decide (C x) && p (g x)) := by
  intro l
  induction l with
  | nil => rfl
  | cons x t ih =>
    by_cases hx : C x
    · simp only [List.filterMap_cons, if_pos hx, List.countP_cons, ih,
        decide_eq_true hx, Bool.true_and]
    · simp only [List.filterMap_cons, if_neg hx, List.countP_cons, ih,
        decide_eq_false hx, Bool.false_and, Bool.false_eq_true, ite_false, add_zero]

/-! ## Claim theorems -/

/-- C9: the anomaly flow's `getWorkingDaysForPeriod` (whose while loop simply
runs zero times when the end precedes the start) and the three guarded
`getWorkingDays` copies in the billing tab, the manager analytics and the
SOW card all compute the same function of two calendar dates: the number of
Monday-through-Friday days in `[start, end]` inclusive, and 0 whenever
`end < start`. -/
theorem c9_working_day_counters_equivalent : ∀ s e : Int,
    getWorkingDaysForPeriod s e = specWorkingDays s e ∧
    SowBillingTab.getWorkingDays s e = specWorkingDays s e ∧
    ManagerAnalytics.getWorkingDays s e = specWorkingDays s e ∧
    SowCard.getWorkingDays s e = specWorkingDays s e ∧
    (e < s → specWorkingDays s e = 0) := by
  intro s e
  have hcore : getWorkingDaysForPeriod s e = specWorkingDays s e :=
    workingDaysLoop_eq (e + 1 - s).toNat s
  have hzero : e < s → specWorkingDays s e = 0 := by
    intro hlt
    have : (e + 1 - s).toNat = 0 := by omega
    simp [specWorkingDays, this]
  have hguard : (if e < s then 0 else workingDaysLoop s (e + 1 - s).toNat) =
      specWorkingDays s e := by
    by_cases hlt : e < s
    · rw [if_pos hlt, hzero hlt]
    · rw [if_neg hlt]; exact hcore
  exact ⟨hcore, hguard, hguard, hguard, hzero⟩

/-- Witness for C9 at a concrete week: 2024-01-01 (a Monday) through
2024-01-07 spans exactly five working days in all four counters, and a
reversed range yields 0. -/
theorem c9_witness :
    getWorkingDaysForPeriod 19723 19729 = specWorkingDays 19723 19729 ∧
    specWorkingDays 19723 19729 = 5 ∧
    specWorkingDays 19729 19723 = 0 := by
  refine ⟨(c9_working_day_counters_equivalent 19723 19729).1, by decide, ?_⟩
  exact (c9_working_day_counters_equivalent 19729 19723).2.2.2.2 (by decide)

/-- C4: for every rate list and target year, `getRateForYear` returns 0 when
no entry's year is at or before the target year, and otherwise returns the
`ratePerResource` of an entry whose year is at or before the target year and
maximal among such entries — in particular it never returns a rate taken
from an entry whose year is later than the target year. -/
theorem c4_rate_resolution : ∀ (rates : List BillingRate) (targetYear : Int),
    ((∀ e ∈ rates, ¬e.year ≤ targetYear) → getRateForYear rates targetYear = 0) ∧
    (∀ e₀ ∈ rates, e₀.year ≤ targetYear →
      ∃ e ∈ rates, e.year ≤ targetYear ∧
        (∀ x ∈ rates, x.year ≤ targetYear → x.year ≤ e.year) ∧
        getRateForYear rates targetYear = e.ratePerResource) := by
  intro rates targetYear
  exact ⟨getRateForYear_eq_zero rates targetYear,
    fun e₀ he₀ hq => getRateForYear_exists_max rates targetYear e₀ he₀ hq⟩

/-- Witness for C4: a two-entry history resolved at a year between the two
entries picks an at-or-before entry, and a history entirely in the future
resolves to 0. -/
theorem c4_witness :
    (∃ e ∈ [BillingRate.mk 2023 100, BillingRate.mk 2025 200], e.year ≤ 2024 ∧
      (∀ x ∈ [BillingRate.mk 2023 100, BillingRate.mk 2025 200], x.year ≤ 2024 →
        x.year ≤ e.year) ∧
      getRateForYear [BillingRate.mk 2023 100, BillingRate.mk 2025 200] 2024 =
        e.ratePerResource) ∧
    getRateForYear [BillingRate.mk 2025 200] 2024 = 0 := by
  constructor
  · exact (c4_rate_resolution [BillingRate.mk 2023 100, BillingRate.mk 2025 200] 2024).2
      (BillingRate.mk 2023 100) (by decide) (by decide)
  · exact (c4_rate_resolution [BillingRate.mk 2025 200] 2024).1 (by decide)

/-- C1: the anomaly classifier computes
`relativeDeviation = |actual - expected| / expected` when `expected > 0` and
otherwise 1 or 0 according to whether the absolute deviation is positive;
its deterministic flag is `relativeDeviation > 0.05`; consequently
`(expected = 0, actual = 0)` is not anomalous, `(expected = 0, actual > 0)`
is anomalous, an actual equal to the expected gives deviation ratio 0 and no
flag, and an actual of 1.10 times a positive expected gives deviation ratio
0.10 and the flag. -/
theorem c1_anomaly_classifier : ∀ expected actual : ℚ,
    relativeDeviation expected actual =
      (if 0 < expected then |actual - expected| / expected
       else if 0 < |actual - expected| then 1 else 0) ∧
    (isAnomalyDetectedBySystem expected actual = true ↔
      5 / 100 < relativeDeviation expected actual) ∧
    (actual = expected →
      relativeDeviation expected actual = 0 ∧
      isAnomalyDetectedBySystem expected actual = false) ∧
    (expected = 0 → actual = 0 → isAnomalyDetectedBySystem expected actual = false) ∧
    (expected = 0 → 0 < actual → isAnomalyDetectedBySystem expected actual = true) ∧
    (0 < expected → actual = 11 / 10 * expected →
      relativeDeviation expected actual = 1 / 10 ∧
      isAnomalyDetectedBySystem expected actual = true) := by
  intro expected actual
  have hflag : ∀ a b : ℚ, isAnomalyDetectedBySystem a b = true ↔
      5 / 100 < relativeDeviation a b := by
    intro a b
    simp [isAnomalyDetectedBySystem, ANOMALY_THRESHOLD_PERCENTAGE]
  refine ⟨rfl, hflag expected actual, ?_, ?_, ?_, ?_⟩
  · intro heq
    have hdev : relativeDeviation expected actual = 0 := by
      subst heq
      simp [relativeDeviation]
    refine ⟨hdev, ?_⟩
    rw [← Bool.not_eq_true, hflag, hdev]
    norm_num
  · intro he ha
    subst he; subst ha
    rw [← Bool.not_eq_true, hflag]
    simp [relativeDeviation]
    norm_num
  · intro he ha
    subst he
    rw [hflag]
    have : relativeDeviation 0 actual = 1 := by
      simp [relativeDeviation, abs_of_pos, ha, ne_of_gt ha]
    rw [this]; norm_num
  · intro hpos heq
    have hdev : relativeDeviation expected actual = 1 / 10 := by
      unfold relativeDeviation
      rw [if_pos hpos]
      have h1 : actual - expected = 1 / 10 * expected := by rw [heq]; ring
      rw [h1, abs_of_pos (by positivity), mul_div_assoc,
        div_self (ne_of_gt hpos), mul_one]
    refine ⟨hdev, ?_⟩
    rw [hflag, hdev]; norm_num

/-- Witness for C1 at `expected = 20, actual = 22 = 1.10 × 20`: deviation
ratio 1/10, flagged anomalous. -/
theorem c1_witness :
    relativeDeviation 20 22 = 1 / 10 ∧ isAnomalyDetectedBySystem 20 22 = true :=
  (c1_anomaly_classifier 20 22).2.2.2.2.2 (by norm_num) (by norm_num)

/-- C10: saving a SOW whose id is already in the list replaces exactly the
elements carrying that id (leaving every other element, the length and the
id sequence unchanged), saving a fresh id appends the SOW at the end,
deleting by an id removes exactly the elements carrying that id and keeps
all others in order, and both operations preserve the uniqueness of ids. -/
theorem c10_save_delete_frame : ∀ (l : List SOW) (s : SOW),
    ((∃ x ∈ l, x.id = s.id) →
      (handleSaveSow l s).length = l.length ∧
      (∀ (i : ℕ) (x : SOW), l.get? i = some x →
        (handleSaveSow l s).get? i = some (if x.id = s.id then s else x)) ∧
      (handleSaveSow l s).map (·.id) = l.map (·.id)) ∧
    ((¬∃ x ∈ l, x.id = s.id) → handleSaveSow l s = l ++ [s]) ∧
    (∀ sid : String,
      (handleDeleteSow l sid).Sublist l ∧
      (∀ x ∈ handleDeleteSow l sid, x.id ≠ sid) ∧
      (∀ x ∈ l, x.id ≠ sid → x ∈ handleDeleteSow l sid) ∧
      (∀ x : SOW, (handleDeleteSow l sid).count x =
        if x.id = sid then 0 else l.count x)) ∧
    ((l.map (·.id)).Nodup → ((handleSaveSow l s).map (·.id)).Nodup) ∧
    (∀ sid : String, (l.map (·.id)).Nodup →
      ((handleDeleteSow l sid).map (·.id)).Nodup) := by
  intro l s
  have hany : (l.any fun x => decide (x.id = s.id)) = true ↔ ∃ x ∈ l, x.id = s.id := by
    simp [List.any_eq_true]
  have hsave_pos : (∃ x ∈ l, x.id = s.id) →
      handleSaveSow l s = l.map (fun x => if x.id = s.id then s else x) := by
    intro hex
    unfold handleSaveSow
    rw [if_pos (hany.mpr hex)]
  have hsave_neg : (¬∃ x ∈ l, x.id = s.id) → handleSaveSow l s = l ++ [s] := by
    intro hnex
    unfold handleSaveSow
    rw [if_neg (fun hc => hnex (hany.mp hc))]
  have hids_pos : (∃ x ∈ l, x.id = s.id) →
      (handleSaveSow l s).map (·.id) = l.map (·.id) := by
    intro hex
    rw [hsave_pos hex, List.map_map]
    refine List.map_congr_left fun x _ => ?_
    by_cases hx : x.id = s.id
    · simp [Function.comp, hx]
    · simp [Function.comp, hx]
  have hdel : ∀ sid : String,
      (handleDeleteSow l sid).Sublist l ∧
      (∀ x ∈ handleDeleteSow l sid, x.id ≠ sid) ∧
      (∀ x ∈ l, x.id ≠ sid → x ∈ handleDeleteSow l sid) ∧
      (∀ x : SOW, (handleDeleteSow l sid).count x =
        if x.id = sid then 0 else l.count x) := by
    intro sid
    simp only [handleDeleteSow]
    refine ⟨List.filter_sublist l, ?_, ?_, ?_⟩
    · intro x hx
      have h2 := (List.mem_filter.mp hx).2
      exact of_decide_eq_true h2
    · intro x hx hne
      exact List.mem_filter.mpr ⟨hx, decide_eq_true hne⟩
    · intro x
      by_cases hx : x.id = sid
      · rw [if_pos hx, List.count_eq_zero]
        intro hmem
        exact of_decide_eq_true (List.mem_filter.mp hmem).2 hx
      · rw [if_neg hx]
        exact List.count_filter (by simpa using hx)
  refine ⟨?_, hsave_neg, hdel, ?_, ?_⟩
  · intro hex
    refine ⟨?_, ?_, hids_pos hex⟩
    · rw [hsave_pos hex, List.length_map]
    · intro i x hx
      rw [hsave_pos hex, List.get?_map, hx]
      rfl
  · intro hnodup
    by_cases hex : ∃ x ∈ l, x.id = s.id
    · rw [hids_pos hex]; exact hnodup
    · rw [hsave_neg hex, List.map_append]
      rw [List.nodup_append]
      refine ⟨hnodup, List.nodup_singleton _, ?_⟩
      intro a ha hb
      rcases List.mem_map.mp ha with ⟨x, hxl, hxa⟩
      have : a = s.id := by simpa using hb
      exact hex ⟨x, hxl, by rw [hxa, this]⟩
  · intro sid hnodup
    exact List.Nodup.sublist (List.Sublist.map _ (List.filter_sublist l)) hnodup

/-- Witness for C10: replacing an edited SOW keeps the id sequence, saving a
fresh id appends, and deleting an id leaves the other ids unique. -/
theorem c10_witness :
    (handleSaveSow [sowUnitRate] sowEdited).map (·.id) = [sowUnitRate].map (·.id) ∧
    handleSaveSow [sowOther] sowEdited = [sowOther] ++ [sowEdited] ∧
    ((handleDeleteSow [sowUnitRate, sowOther] sowUnitRate.id).map (·.id)).Nodup := by
  refine ⟨((c10_save_delete_frame [sowUnitRate] sowEdited).1
      ⟨sowUnitRate, by decide, by decide⟩).2.2, ?_, ?_⟩
  · exact (c10_save_delete_frame [sowOther] sowEdited).2.1 (by decide)
  · exact (c10_save_delete_frame [sowUnitRate, sowOther] sowEdited).2.2.2.2
      sowUnitRate.id (by decide)

/-- C2 counterexample: in the Monthly Billing Preview, a month whose entered
regional holidays (30) exceed the clipped window's working days (19) yields
a negative expected billing amount (-11 at a daily rate of 1): the preview
amount is not clamped at zero. -/
theorem c2_counterexample : (previewBilling sowUnitRate monthManyHolidays).amount < 0 := by
  have hwd : SowBillingTab.getWorkingDays
      (max (toDay monthManyHolidays.billingPeriodStartDate) (toDay sowUnitRate.startDate))
      (min (toDay monthManyHolidays.billingPeriodEndDate) (toDay sowUnitRate.endDate)) =
      19 := by decide
  have hrate : getRateForYear sowUnitRate.billingRates
      monthManyHolidays.billingPeriodEndDate.y = 21 := by decide
  simp only [previewBilling, tabTotalBillableDays, hwd, hrate]
  norm_num [monthManyHolidays]

/-- C2 amended: billable day counts are clamped at zero exactly where the
code clamps them — the anomaly flow's per-resource days (hence, for a
non-negative rate, its total), the billing tab's per-resource rows and the
tab's month total — but the Monthly Billing Preview amount itself is
computed without any clamp (and `c2_counterexample` shows it can be
negative). -/
theorem c2_amended_no_negative_where_clamped :
    (∀ (eff : ℚ) (n : ℕ) (leaves : List ResourceLeave) (rate : ℚ) (i : ℕ),
      0 ≤ max 0 (eff - leaveAt leaves i) ∧
      (0 ≤ rate → 0 ≤ anomalyTotalExpected eff n leaves rate)) ∧
    (∀ (sow : SOW) (month : MonthlyBillingData), 0 ≤ monthTotalBillingINR sow month) ∧
    (∀ billableDaysAfterHolidays dailyRate leaveDays : ℚ, 0 ≤ dailyRate →
      0 ≤ resourceRowBill billableDaysAfterHolidays dailyRate leaveDays) := by
  refine ⟨?_, ?_, ?_⟩
  · intro eff n leaves rate i
    refine ⟨le_max_left 0 _, fun hrate => ?_⟩
    refine Finset.sum_nonneg fun j _ => ?_
    exact mul_nonneg (le_max_left 0 _) hrate
  · intro sow month
    unfold monthTotalBillingINR
    exact le_max_left 0 _
  · intro b d leave hd
    exact mul_nonneg (le_max_left 0 _) hd

/-- Witness for C2 amended at one resource with 100 leave days against 10
effective days and rate 1: the clamped total is non-negative. -/
theorem c2_witness :
    0 ≤ anomalyTotalExpected 10 1 [{ resourceName := "r1", leaveDays := 100 }] 1 :=
  ((c2_amended_no_negative_where_clamped.1 10 1
    [{ resourceName := "r1", leaveDays := 100 }] 1 0).2 (by norm_num))

/-- C3 counterexample: on an input whose rate history holds only a 2025
entry while the billing period ends in 2024 — so no entry is resolvable for
the target year — the anomaly flow aborts (models the thrown
`Billing rate not found` error) instead of degrading to a zero amount. -/
theorem c3_counterexample :
    (∀ e ∈ inputNoResolvableRate.billingRates,
      ¬e.year ≤ inputNoResolvableRate.billingPeriodEndDate.y) ∧
    anomalyFlowCore inputNoResolvableRate = none := by
  exact ⟨by decide, rfl⟩

/-- C3 amended: when no rate entry is resolvable for a target year,
`getRateForYear` yields 0 and the billing-tab computations built on it yield
zero amounts instead of failing; the anomaly flow, however, looks up an
entry for exactly the billing period's end year and aborts when none
exists. -/
theorem c3_amended_missing_rate :
    (∀ (rates : List BillingRate) (y : Int),
      (∀ e ∈ rates, ¬e.year ≤ y) → getRateForYear rates y = 0) ∧
    (∀ (sow : SOW) (month : MonthlyBillingData),
      getRateForYear sow.billingRates month.billingPeriodEndDate.y = 0 →
      (previewBilling sow month).amount = 0 ∧ monthTotalBillingINR sow month = 0) ∧
    (∀ input : AnomalyInput,
      input.billingRates.find?
        (fun rte => decide (rte.year = input.billingPeriodEndDate.y)) = none →
      anomalyFlowCore input = none) := by
  refine ⟨getRateForYear_eq_zero, ?_, ?_⟩
  · intro sow month hrate
    constructor
    · simp only [previewBilling, tabTotalBillableDays, hrate]
      norm_num
    · simp only [monthTotalBillingINR, tabTotalBillableDays, hrate]
      norm_num
  · intro input hfind
    simp only [anomalyFlowCore, hfind]

/-- Witness for C3 amended: the future-only history resolves to rate 0, and
the abort branch fires on the concrete no-resolvable-rate input. -/
theorem c3_witness :
    getRateForYear [BillingRate.mk 2025 100] 2024 = 0 ∧
    anomalyFlowCore inputNoResolvableRate = none := by
  refine ⟨c3_amended_missing_rate.1 [BillingRate.mk 2025 100] 2024 (by decide), ?_⟩
  exact c3_amended_missing_rate.2.2 inputNoResolvableRate (by decide)

/-- C7 counterexample: with 10 effective days, one actual resource and leave
rows `[0, 5]`, the billing tab's total is `10·1 − (0+5) = 5`, while the
claimed per-resource rule (honoring only the first `actualNumberOfResources`
entries) gives 10 — the tab sums all leave entries, not just the first
`actualNumberOfResources`, and applies no per-resource clamp. -/
theorem c7_counterexample :
    tabTotalBillableDays monthExtraLeaveRow 10 = 5 ∧
    claimPerResourceTotal 10 monthExtraLeaveRow.actualNumberOfResources
      monthExtraLeaveRow.resourceLeaves = 10 ∧
    tabTotalBillableDays monthExtraLeaveRow 10 ≠
      claimPerResourceTotal 10 monthExtraLeaveRow.actualNumberOfResources
        monthExtraLeaveRow.resourceLeaves := by
  have h1 : tabTotalBillableDays monthExtraLeaveRow 10 = 5 := by
    simp only [tabTotalBillableDays, monthExtraLeaveRow, List.map_cons, List.map_nil,
      List.sum_cons, List.sum_nil]
    norm_num
  have h2 : claimPerResourceTotal 10 monthExtraLeaveRow.actualNumberOfResources
      monthExtraLeaveRow.resourceLeaves = 10 := by
    simp only [claimPerResourceTotal, monthExtraLeaveRow, Finset.sum_range_one, leaveAt]
    norm_num
  exact ⟨h1, h2, by rw [h1, h2]; norm_num⟩

/-- C7 amended: the anomaly flow's expected-billing loop does follow the
claimed rule — per-resource `max(0, effectiveDays - leave)` billed at the
rate, summed over exactly the first `actualNumberOfResources` leave entries
with missing entries as zero (so two leave lists agreeing on those entries
give the same total) — while the billing-tab computations use the unclamped
`billableDays × resources − (sum of all leave entries)` instead
(`c7_counterexample`). -/
theorem c7_amended_per_resource_rule :
    ∀ (eff : ℚ) (n : ℕ) (leaves : List ResourceLeave) (rate : ℚ),
    anomalyTotalExpected eff n leaves rate = claimPerResourceTotal eff n leaves * rate ∧
    (∀ leaves₂ : List ResourceLeave, (∀ i < n, leaveAt leaves i = leaveAt leaves₂ i) →
      anomalyTotalExpected eff n leaves rate = anomalyTotalExpected eff n leaves₂ rate) := by
  intro eff n leaves rate
  constructor
  · unfold anomalyTotalExpected claimPerResourceTotal
    rw [Finset.sum_mul]
  · intro leaves₂ hagree
    unfold anomalyTotalExpected
    refine Finset.sum_congr rfl fun i hi => ?_
    rw [hagree i (Finset.mem_range.mp hi)]

/-- Witness for C7 amended: dropping the extra second leave row does not
change the anomaly flow's total for one actual resource. -/
theorem c7_witness :
    anomalyTotalExpected 10 1 monthExtraLeaveRow.resourceLeaves 1 =
      anomalyTotalExpected 10 1 [{ resourceName := "r1", leaveDays := 0 }] 1 := by
  refine (c7_amended_per_resource_rule 10 1 monthExtraLeaveRow.resourceLeaves 1).2
    [{ resourceName := "r1", leaveDays := 0 }] ?_
  intro i hi
  have h0 : i = 0 := by omega
  subst h0
  rfl

/-- C6 counterexample: 2024-04-11 lies exactly 3 months plus 1 day after
2024-01-10 (3 calendar months after 2024-01-10 is 2024-04-10), its
whole-month distance is 3, and the card marks it renewal-due — the claim's
scenario that a contract ending 3 months + 1 day away is not due fails on
the code. -/
theorem c6_counterexample :
    toDay ⟨2024, 4, 11⟩ = toDay ⟨2024, 4, 10⟩ + 1 ∧
    differenceInMonths ⟨2024, 4, 11⟩ ⟨2024, 1, 10⟩ = 3 ∧
    isExpired ⟨2024, 4, 11⟩ ⟨2024, 1, 10⟩ = false ∧
    isRenewalDue ⟨2024, 4, 11⟩ ⟨2024, 1, 10⟩ = true := by
  refine ⟨by decide, by decide, by decide, by decide⟩

/-- C6 amended: `isRenewalDue(endDate, today)` holds iff `endDate ≥ today`
and the whole-month difference between them is at most 3, `isExpired` holds
iff `endDate < today`, and the two are mutually exclusive; a contract ending
3 months minus 1 day from today is due, one ending yesterday is expired and
not due — and one ending 3 months + 1 day away is also still due (its
whole-month difference is 3); not-due begins at a whole-month difference of
4, e.g. exactly 4 months away. -/
theorem c6_amended_renewal_flags :
    (∀ e t : CDate,
      (isExpired e t = true ↔ toDay e < toDay t) ∧
      (isRenewalDue e t = true ↔
        toDay t ≤ toDay e ∧ differenceInMonths e t ≤ 3) ∧
      ¬(isRenewalDue e t = true ∧ isExpired e t = true)) ∧
    isRenewalDue ⟨2024, 4, 9⟩ ⟨2024, 1, 10⟩ = true ∧
    isRenewalDue ⟨2024, 4, 11⟩ ⟨2024, 1, 10⟩ = true ∧
    isRenewalDue ⟨2024, 5, 10⟩ ⟨2024, 1, 10⟩ = false ∧
    isExpired ⟨2024, 1, 9⟩ ⟨2024, 1, 10⟩ = true ∧
    isRenewalDue ⟨2024, 1, 9⟩ ⟨2024, 1, 10⟩ = false := by
  refine ⟨?_, by decide, by decide, by decide, by decide, by decide⟩
  intro e t
  refine ⟨by simp [isExpired], ?_, ?_⟩
  · simp [isRenewalDue, isExpired, not_lt]
  · rintro ⟨hdue, hexp⟩
    simp only [isRenewalDue, hexp, Bool.not_true, Bool.false_and] at hdue
    exact Bool.false_ne_true hdue

/-- Witness for C6: the general characterisation applied at the
yesterday-expired pair. -/
theorem c6_witness : isExpired ⟨2024, 1, 9⟩ ⟨2024, 1, 10⟩ = true :=
  ((c6_amended_renewal_flags.1 ⟨2024, 1, 9⟩ ⟨2024, 1, 10⟩).1).mpr (by decide)

/-- C8 counterexample: with history `{2020 ↦ 100, 2024 ↦ 200}`, adding an
entry `{2022 ↦ 50}` — a year strictly between the two resolution bests —
drops the resolved rate for target year 2022 (a year at or after the new
entry's year) from 100 to 50: the addition is not monotone. -/
theorem c8_counterexample :
    getRateForYear [⟨2020, 100⟩, ⟨2024, 200⟩] 2022 = 100 ∧
    getRateForYear [⟨2020, 100⟩, ⟨2024, 200⟩, ⟨2022, 50⟩] 2022 = 50 ∧
    getRateForYear [⟨2020, 100⟩, ⟨2024, 200⟩, ⟨2022, 50⟩] 2022 <
      getRateForYear [⟨2020, 100⟩, ⟨2024, 200⟩] 2022 := by
  refine ⟨by decide, by decide, by decide⟩

/-- C8 amended: for a history with per-contract-unique years containing
resolution-best entries at years `y1 < y2` and no entry strictly between
them, adding a fresh entry at a year `yNew` strictly between `y1` and `y2`
leaves resolution unchanged for every target year below `yNew` and for every
target year at or above `y2`, and makes resolution for target years in
`[yNew, y2)` return exactly the new entry's rate — which may be lower than
the previous resolution (`c8_counterexample`), so the update is not
monotone. -/
theorem c8_amended_insertion_effect
    (rates : List BillingRate) (y1 y2 yNew : Int) (r : ℚ) (e1 e2 : BillingRate)
    (he1 : e1 ∈ rates) (hy1 : e1.year = y1) (he2 : e2 ∈ rates) (hy2 : e2.year = y2)
    (hlo : y1 < yNew) (hhi : yNew < y2)
    (hgap : ∀ e ∈ rates, e.year ≤ y1 ∨ y2 ≤ e.year)
    (hfresh : ∀ e ∈ rates, e.year ≠ yNew)
    (hdistinct : ∀ a ∈ rates, ∀ b ∈ rates, a.year = b.year → a = b) :
    (∀ t : Int, t < yNew →
      getRateForYear (rates ++ [⟨yNew, r⟩]) t = getRateForYear rates t) ∧
    (∀ t : Int, yNew ≤ t → t < y2 →
      getRateForYear (rates ++ [⟨yNew, r⟩]) t = r) ∧
    (∀ t : Int, y2 ≤ t →
      getRateForYear (rates ++ [⟨yNew, r⟩]) t = getRateForYear rates t) := by
  refine ⟨?_, ?_, ?_⟩
  · intro t ht
    by_cases hq : ∃ e ∈ rates, e.year ≤ t
    · obtain ⟨e₀, he₀, hq₀⟩ := hq
      obtain ⟨e, hmem, hle, hmax, hval⟩ := getRateForYear_exists_max rates t e₀ he₀ hq₀
      rw [hval]
      refine getRateForYear_eq_of_max _ t e (List.mem_append_left _ hmem) hle ?_ ?_
      · intro x hx hxy
        rcases List.mem_append.mp hx with hx | hx
        · exact hmax x hx hxy
        · have hxn : x = (⟨yNew, r⟩ : BillingRate) := List.mem_singleton.mp hx
          rw [hxn] at hxy
          have hyt : yNew ≤ t := hxy
          omega
      · intro x hx hxe
        rcases List.mem_append.mp hx with hx | hx
        · exact hdistinct x hx e hmem hxe
        · have hxn : x = (⟨yNew, r⟩ : BillingRate) := List.mem_singleton.mp hx
          rw [hxn] at hxe
          have : yNew ≤ t := by rw [← hxe] at hle; exact hle
          omega
    · push_neg at hq
      rw [getRateForYear_eq_zero rates t (fun e he => not_le.mpr (hq e he)),
        getRateForYear_eq_zero _ t ?_]
      intro x hx
      rcases List.mem_append.mp hx with hx | hx
      · exact not_le.mpr (hq x hx)
      · rw [List.mem_singleton.mp hx]
        show ¬yNew ≤ t
        omega
  · intro t ht1 ht2
    have := getRateForYear_eq_of_max (rates ++ [⟨yNew, r⟩]) t ⟨yNew, r⟩
      (List.mem_append_right _ (List.mem_singleton_self _)) ht1 ?_ ?_
    · exact this
    · intro x hx hxy
      rcases List.mem_append.mp hx with hx | hx
      · show x.year ≤ yNew
        rcases hgap x hx with hg | hg
        · omega
        · omega
      · rw [List.mem_singleton.mp hx]
    · intro x hx hxe
      rcases List.mem_append.mp hx with hx | hx
      · exact absurd hxe (hfresh x hx)
      · exact List.mem_singleton.mp hx
  · intro t ht
    have hq2 : e2.year ≤ t := by omega
    obtain ⟨e, hmem, hle, hmax, hval⟩ := getRateForYear_exists_max rates t e2 he2 hq2
    have hey : y2 ≤ e.year := by
      have := hmax e2 he2 hq2
      omega
    rw [hval]
    refine getRateForYear_eq_of_max _ t e (List.mem_append_left _ hmem) hle ?_ ?_
    · intro x hx hxy
      rcases List.mem_append.mp hx with hx | hx
      · exact hmax x hx hxy
      · rw [List.mem_singleton.mp hx]
        show yNew ≤ e.year
        omega
    · intro x hx hxe
      rcases List.mem_append.mp hx with hx | hx
      · exact hdistinct x hx e hmem hxe
      · have hxn := List.mem_singleton.mp hx
        rw [hxn] at hxe
        have hxe2 : yNew = e.year := hxe
        omega

/-- Witness for C8 amended at the concrete history `{2020 ↦ 100, 2024 ↦ 200}`
with the fresh entry `{2022 ↦ 50}`: resolution at 2021 is unchanged and
resolution at 2023 returns the new rate. -/
theorem c8_witness :
    getRateForYear [⟨2020, 100⟩, ⟨2024, 200⟩, ⟨2022, 50⟩] 2021 =
      getRateForYear [⟨2020, 100⟩, ⟨2024, 200⟩] 2021 ∧
    getRateForYear [⟨2020, 100⟩, ⟨2024, 200⟩, ⟨2022, 50⟩] 2023 = 50 := by
  have h := c8_amended_insertion_effect [⟨2020, 100⟩, ⟨2024, 200⟩] 2020 2024 2022 50
    ⟨2020, 100⟩ ⟨2024, 200⟩ (by decide) (by decide) (by decide) (by decide)
    (by decide) (by decide) (by decide) (by decide) (by decide)
  exact ⟨h.1 2021 (by decide), h.2.1 2023 (by decide) (by decide)⟩

/-- C5 counterexample: the contract 2024-01-26 .. 2024-01-31 (start at or
before the end, both dates valid) generates no billing period at all — its
only candidate window, Dec 26 2023 .. Jan 25 2024, ends before the contract
starts and is filtered out, and the loop stops with January — so its first
active day is covered by zero clipped windows rather than exactly one. -/
theorem c5_counterexample :
    (⟨2024, 1, 26⟩ : CDate).ValidDate ∧ (⟨2024, 1, 31⟩ : CDate).ValidDate ∧
    toDay ⟨2024, 1, 26⟩ ≤ toDay ⟨2024, 1, 31⟩ ∧
    getBillingPeriods ⟨2024, 1, 26⟩ ⟨2024, 1, 31⟩ = [] ∧
    coveredCount ⟨2024, 1, 26⟩ ⟨2024, 1, 31⟩ (toDay ⟨2024, 1, 26⟩) = 0 := by
  refine ⟨by decide, by decide, by decide, by decide, by decide⟩

/-- C5 amended: for every contract with valid dates and start at or before
the end, the generated billing periods, clipped to the contract span, are
pairwise disjoint and cover exactly once every active day up to and
including the 25th of the end date's month; active days after that cutoff —
which exist precisely when the contract ends on the 26th or later of its
final month — are covered by no period (`c5_counterexample` exhibits such a
gap).  The count of covering periods for any day `n` is 1 inside the zone
`[contractStart, min(contractEnd, 25th of the end month)]` and 0 outside
it. -/
theorem c5_amended_coverage (s e : CDate) (hs : s.ValidDate) (he : e.ValidDate)
    (hse : toDay s ≤ toDay e) : ∀ n : Int,
    coveredCount s e n =
      if toDay s ≤ n ∧ n ≤ min (toDay e) (rawEnd (monthIdx e.y e.m)) then 1 else 0 := by
  intro n
  have hsb := toDay_bounds s hs
  have heb := toDay_bounds e he
  have h0E : monthIdx s.y s.m ≤ monthIdx e.y e.m := by
    by_contra hc
    have hsucc := firstOfMonth_succ (monthIdx e.y e.m)
    have hmono := firstOfMonth_mono (show monthIdx e.y e.m + 1 ≤ monthIdx s.y s.m by omega)
    have hdim := (daysInMonthIdx_bounds (monthIdx e.y e.m)).1
    omega
  have hcount : coveredCount s e n =
      ((List.range (monthIdx e.y e.m - monthIdx s.y s.m + 1).toNat).map
        (fun k : Nat => monthIdx s.y s.m + (k : Int))).countP
        (fun idx => decide (toDay s ≤ rawEnd idx ∧ rawStart idx ≤ toDay e) &&
          decide (clipCovers s e (rawStart idx, rawEnd idx) n)) := by
    simp only [coveredCount, getBillingPeriods]
    rw [List.countP_eq_length_filter, List.filter_reverse, List.length_reverse,
      ← List.countP_eq_length_filter]
    exact countP_filterMap_ite
      (fun idx => toDay s ≤ rawEnd idx ∧ rawStart idx ≤ toDay e)
      (fun idx : Int => (rawStart idx, rawEnd idx))
      (fun pr => decide (clipCovers s e pr n))
      ((List.range (monthIdx e.y e.m - monthIdx s.y s.m + 1).toNat).map
        (fun k : Nat => monthIdx s.y s.m + (k : Int)))
  have hq : ∀ idx : Int,
      ((fun idx => decide (toDay s ≤ rawEnd idx ∧ rawStart idx ≤ toDay e) &&
        decide (clipCovers s e (rawStart idx, rawEnd idx) n)) idx = true) ↔
      (toDay s ≤ n ∧ n ≤ toDay e ∧ rawStart idx ≤ n ∧ n ≤ rawEnd idx) := by
    intro idx
    simp only [Bool.and_eq_true, decide_eq_true_eq, clipCovers, max_le_iff, le_min_iff]
    omega
  have hmem : ∀ j : Int,
      (j ∈ (List.range (monthIdx e.y e.m - monthIdx s.y s.m + 1).toNat).map
        (fun k : Nat => monthIdx s.y s.m + (k : Int))) ↔
      (monthIdx s.y s.m ≤ j ∧ j ≤ monthIdx e.y e.m) := by
    intro j
    simp only [List.mem_map, List.mem_range]
    constructor
    · rintro ⟨k, hk, rfl⟩
      omega
    · rintro ⟨h1, h2⟩
      exact ⟨(j - monthIdx s.y s.m).toNat, by omega, by omega⟩
  have hnodup : ((List.range (monthIdx e.y e.m - monthIdx s.y s.m + 1).toNat).map
      (fun k : Nat => monthIdx s.y s.m + (k : Int))).Nodup :=
    List.Nodup.map (fun a b hab => by omega) (List.nodup_range _)
  rw [hcount]
  by_cases hin : toDay s ≤ n ∧ n ≤ min (toDay e) (rawEnd (monthIdx e.y e.m))
  · rw [if_pos hin]
    obtain ⟨hn1, hn2⟩ := hin
    have hn2e : n ≤ toDay e := le_trans hn2 (min_le_left _ _)
    have hn2r : n ≤ rawEnd (monthIdx e.y e.m) := le_trans hn2 (min_le_right _ _)
    have hrs : rawStart (monthIdx s.y s.m) ≤ toDay s := by
      have hsucc := firstOfMonth_succ (monthIdx s.y s.m - 1)
      have hdim := (daysInMonthIdx_bounds (monthIdx s.y s.m - 1)).1
      have hc : monthIdx s.y s.m - 1 + 1 = monthIdx s.y s.m := by ring
      rw [hc] at hsucc
      unfold rawStart
      omega
    have htileEnd : n ≤ rawEnd (monthIdx s.y s.m +
        ((monthIdx e.y e.m - monthIdx s.y s.m).toNat : Int)) := by
      have hc : monthIdx s.y s.m + ((monthIdx e.y e.m - monthIdx s.y s.m).toNat : Int) =
          monthIdx e.y e.m := by omega
      rw [hc]
      exact hn2r
    obtain ⟨j, hj0, hjE, hjs, hje⟩ := raw_tile (monthIdx s.y s.m)
      (monthIdx e.y e.m - monthIdx s.y s.m).toNat n (le_trans hrs hn1) htileEnd
    have hjE' : j ≤ monthIdx e.y e.m := by omega
    refine countP_eq_one_of_unique _ _ hnodup j ((hmem j).mpr ⟨hj0, hjE'⟩)
      ((hq j).mpr ⟨hn1, hn2e, hjs, hje⟩) ?_
    intro b hb hqb
    obtain ⟨_, _, hb3, hb4⟩ := (hq b).mp hqb
    rcases lt_trichotomy b j with hlt | heq | hgt
    · have := raw_disjoint hlt
      omega
    · exact heq
    · have := raw_disjoint hgt
      omega
  · rw [if_neg hin]
    rw [List.countP_eq_zero]
    intro idx hidx
    obtain ⟨h1, h2⟩ := (hmem idx).mp hidx
    intro hq'
    obtain ⟨hn1, hn2, hn3, hn4⟩ := (hq idx).mp hq'
    exact hin ⟨hn1, le_min hn2 (le_trans hn4 (rawEnd_mono h2))⟩

/-- Witness for C5 amended: for the contract 2024-01-01 .. 2024-02-10, day
2024-01-05 (inside the coverage zone) lies in exactly one clipped period and
day 2024-02-10 (the contract's last day, after January's period and inside
February's) also lies in exactly one. -/
theorem c5_witness :
    coveredCount ⟨2024, 1, 1⟩ ⟨2024, 2, 10⟩ (toDay ⟨2024, 1, 5⟩) = 1 ∧
    coveredCount ⟨2024, 1, 1⟩ ⟨2024, 2, 10⟩ (toDay ⟨2024, 2, 10⟩) = 1 := by
  have h1 := c5_amended_coverage ⟨2024, 1, 1⟩ ⟨2024, 2, 10⟩ (by decide) (by decide)
    (by decide) (toDay ⟨2024, 1, 5⟩)
  have h2 := c5_amended_coverage ⟨2024, 1, 1⟩ ⟨2024, 2, 10⟩ (by decide) (by decide)
    (by decide) (toDay ⟨2024, 2, 10⟩)
  rw [if_pos (by decide)] at h1
  rw [if_pos (by decide)] at h2
  exact ⟨h1, h2⟩

end SowManager
